import Mathlib

/-!
Verification of the migrant migration engine (jaemk/migrant).

This file gives a shallow embedding of the core of the repository:

* the filesystem discovery of migrations
  (`search_for_migrations`, migrant_lib/src/lib.rs lines 1039-1090),
* the resolution of the next migration
  (`next_available`, migrant_lib/src/lib.rs lines 1094-1120),
* the apply engine (`apply_migration`, migrant_lib/src/lib.rs lines 1124-1185)
  together with the ledger reload (`Config::load_applied`, lines 246-266),
* the current-generation configuration layer
  (`Config::use_migrations`, `Config::check_saved_tag`, `Config::load_applied`
  in migrant_lib/src/config.rs, and the `with_tag` constructors in
  migrant_lib/src/migration.rs).

Modelling conventions:

* A filesystem path is a list of components (`MPath`).  `fileName`, `parent`,
  file stem and extension mirror the `std::path` operations used by the code.
* The result of walking the migration root (`WalkDir`) is passed in as a plain
  list of paths, and the database backends (`runner`, `insert_migration_tag`,
  `delete_migration_tag`, `select_migrations`) are abstracted exactly at the
  subprocess/driver boundary: an execution oracle `runs : MPath → Bool` and a
  ledger `List String` in insertion order.
* Rust panics (`unwrap` / `expect` / `unreachable!`) are modelled by the
  `Panic` error of an `Except`; they are kept distinct from the library's own
  `Error` values, since a panic aborts the process instead of returning
  `Result::Err`.
* `chrono::Utc.datetime_from_str(s, "%Y%m%d%H%M%S")` is modelled as requiring
  exactly 14 decimal digits, read as a number; calendar-range validity is
  abstracted away (no claim below depends on rejecting, say, month 13), and
  numeric order on the 14-digit number agrees with chronological order.
* Rust's stable `sort_by(|a, b| a.stamp.cmp(&b.stamp))` is modelled by
  `List.insertionSort` on the stamp order, which is also a stable sort, hence
  produces the same list.
-/

/-- A filesystem path, as its list of components. -/
abbrev MPath := List String

namespace MPath

/-- `Path::file_name`: the last component, if any. -/
def fileName (p : MPath) : Option String := p.getLast?

/-- `Path::parent`: everything but the last component; `None` on the empty path. -/
def parent (p : MPath) : Option MPath :=
  match p with
  | [] => none
  | _ :: _ => some p.dropLast

/-- Split one path component into `(file_stem, extension)` following
`std::path`: the extension is the part after the last dot, there is no
extension when there is no dot or when the only dot is the leading one. -/
def extSplit (s : String) : String × Option String :=
  let rev := s.data.reverse
  let extR := rev.takeWhile (fun c => c ≠ '.')
  let restR := rev.dropWhile (fun c => c ≠ '.')
  match restR with
  | [] => (s, none)
  | _ :: [] => (s, none)
  | _ :: stemR => (⟨stemR.reverse⟩, some ⟨extR.reverse⟩)

/-- `Path::file_stem` of the last component. -/
def fileStem (p : MPath) : Option String := (fileName p).map (fun s => (extSplit s).1)

/-- `Path::extension` of the last component. -/
def extension (p : MPath) : Option String := (fileName p).bind (fun s => (extSplit s).2)

/-- The filter applied by the discovery walk:
`if let Some(ext) = path.extension() { if ext.is_empty() || ext != "sql" { continue; } ... }`. -/
def hasSqlExt (p : MPath) : Bool :=
  match extension p with
  | none => false
  | some e => !(e = "") && e = "sql"

end MPath

/-- The character class `[a-z0-9-]` of the tag regexes. -/
def allowedChar (c : Char) : Bool :=
  ('a' ≤ c && c ≤ 'z') || ('0' ≤ c && c ≤ '9') || c = '-'

/-- `TAG_RE.is_match(tag)` for `TAG_RE = [^a-z0-9-]+`
(migrant_lib/src/lib.rs lines 73-76): true exactly when some character lies
outside `[a-z0-9-]`.  The current-generation `invalid_tag` helper used by
config.rs and migration.rs wraps this same regex. -/
def invalid_tag (tag : String) : Bool :=
  tag.data.any (fun c => !(allowedChar c))

/-- Modelled from the spec: `FULL_TAG_RE`, the generated-tag pattern, is
defined in the current-generation library root which is absent from the
sources; the spec (§3, §4.1) and the doc comment on `Config::check_saved_tag`
give the pattern `<14-digit timestamp>_<name with [a-z0-9-]+>` for the whole
tag. -/
def fullTagMatch (tag : String) : Bool :=
  let stamp := tag.data.take 14
  let rest := tag.data.drop 14
  stamp.length = 14 && stamp.all (fun c => c.isDigit) &&
    (match rest with
     | [] => false
     | c :: name => c = '_' && !(name = []) && name.all allowedChar)

/-- `tag.split('_').next().unwrap()`: the segment before the first underscore
(the whole string when there is none; `split` always yields one segment). -/
def firstSeg (tag : String) : String := ⟨tag.data.takeWhile (fun c => c ≠ '_')⟩

/-- `chrono::Utc.datetime_from_str(s, "%Y%m%d%H%M%S")`, abstracted: succeeds
exactly on 14 decimal digits, returning the number they denote (numeric order
agrees with chronological order). -/
def parseStamp (s : String) : Option Nat :=
  if s.length = 14 && s.data.all (fun c => c.isDigit) then
    some (s.data.foldl (fun n c => n * 10 + (c.toNat - 48)) 0)
  else none

/-- Rust panics hit by the discovery/resolution code: `expect` on a missing
file name or stem, the `unreachable!()` arm for a stem that is neither `up`
nor `down`, `unwrap` on `Path::parent`, and `unwrap` on the timestamp parse. -/
inductive Panic where
  | dirFileName
  | fileStemPanic
  | unreachableStem
  | parentPanic
  | stampPanic
  deriving Repr, DecidableEq

/-- The `Migration` struct of migrant_lib/src/lib.rs lines 481-488. -/
structure Migration where
  stamp : Nat
  dir : MPath
  up : MPath
  down : MPath
  deriving Repr, DecidableEq

/-- The stamp order used by `migrations.sort_by(|a, b| a.stamp.cmp(&b.stamp))`. -/
def stampLE (a b : Migration) : Prop := a.stamp ≤ b.stamp

instance : DecidableRel stampLE := fun a b => Nat.decLe a.stamp b.stamp

instance : IsTotal Migration stampLE := ⟨fun a b => Nat.le_total a.stamp b.stamp⟩

instance : IsTrans Migration stampLE := ⟨fun _ _ _ h h' => Nat.le_trans h h'⟩

/-- `files.entry(key).or_insert_with(Vec::new); entry.push(path)`: group the
walked `.sql` paths by parent directory, keeping within-group walk order.
(The Rust `HashMap` iterates groups in arbitrary order; first-occurrence
order is one admissible order, and the final result is sorted by stamp.) -/
def addToGroup (groups : List (MPath × List MPath)) (key : MPath) (p : MPath) :
    List (MPath × List MPath) :=
  match groups with
  | [] => [(key, [p])]
  | (k, ps) :: rest =>
    if k = key then (k, ps ++ [p]) :: rest else (k, ps) :: addToGroup rest key p

/-- The collection loop of `search_for_migrations` (lines 1041-1053): keep the
paths whose extension is `sql`, grouped by parent directory. -/
def groupSql (walk : List MPath) : List (MPath × List MPath) :=
  walk.foldl
    (fun groups p =>
      if MPath.hasSqlExt p then addToGroup groups p.dropLast p else groups)
    []

/-- The `for mig in migs.iter()` loop of lines 1068-1077: assign each file of
the group to `up` or `down` by file stem, any other stem being
`unreachable!()`.  Both accumulators start as the group directory (lines
1065-1066). -/
def assignStems (up down : MPath) : List MPath → Except Panic (MPath × MPath)
  | [] => .ok (up, down)
  | m :: rest =>
    match MPath.fileStem m with
    | none => .error .fileStemPanic
    | some stem =>
      if stem = "up" then assignStems m down rest
      else if stem = "down" then assignStems up m rest
      else .error .unreachableStem

/-- Build one `Migration` from a directory group (lines 1057-1084): extract
the directory name, take its segment before `_` as the timestamp text, run
the stem-assignment loop, then construct the struct (whose `dir` field is
`up.parent().unwrap()` and whose `stamp` parses the timestamp, both able to
panic). -/
def mkMigration (dirPath : MPath) (migs : List MPath) : Except Panic Migration :=
  match MPath.fileName dirPath with
  | none => .error .dirFileName
  | some name =>
    let stampStr := firstSeg name
    match assignStems dirPath dirPath migs with
    | .error e => .error e
    | .ok (up, down) =>
      match MPath.parent up with
      | none => .error .parentPanic
      | some dir =>
        match parseStamp stampStr with
        | none => .error .stampPanic
        | some st => .ok ⟨st, dir, up, down⟩

/-- The `for (path, migs) in &files` loop of lines 1057-1085: build one
`Migration` per group, the first panic aborting the loop. -/
def mkMigrations : List (MPath × List MPath) → Except Panic (List Migration)
  | [] => .ok []
  | g :: rest =>
    match mkMigration g.1 g.2 with
    | .error e => .error e
    | .ok m =>
      match mkMigrations rest with
      | .error e => .error e
      | .ok ms => .ok (m :: ms)

/-- `search_for_migrations` (migrant_lib/src/lib.rs lines 1039-1090): group
the walked `.sql` files by directory, build a `Migration` per group, and sort
ascending by timestamp (stable sort, as Rust's `sort_by`). -/
def search_for_migrations (walk : List MPath) : Except Panic (List Migration) :=
  match mkMigrations (groupSql walk) with
  | .error e => .error e
  | .ok migs => .ok (List.insertionSort stampLE migs)

/-- `Direction` (migrant_lib/src/lib.rs lines 465-468). -/
inductive Direction where
  | up
  | down
  deriving Repr, DecidableEq

/-- The tag of a discovered migration: `mig.dir.file_name()`, defaulted for
totality (the `.expect` panic is kept separately in `firstUnapplied`). -/
def tagOf (m : Migration) : String := (MPath.fileName m.dir).getD ""

/-- The `for mig in &available` loop of `next_available`'s `Up` arm (lines
1098-1106): return the first migration whose directory name is not among the
applied tags; extracting the directory name `.expect`s it exists. -/
def firstUnapplied : List Migration → List String → Except Panic (Option Migration)
  | [], _ => .ok none
  | m :: rest, applied =>
    match MPath.fileName m.dir with
    | none => .error .dirFileName
    | some tag =>
      if applied.contains tag then firstUnapplied rest applied
      else .ok (some m)

/-- `next_available` (migrant_lib/src/lib.rs lines 1094-1120).  `Up` scans the
discovered migrations for the first un-applied one and returns its `up` path;
`Down` maps the last applied tag directly to `mig_dir/<tag>/down.sql`. -/
def next_available (direction : Direction) (migDir : MPath) (walk : List MPath)
    (applied : List String) : Except Panic (Option MPath) :=
  match direction with
  | .up =>
    match search_for_migrations walk with
    | .error e => .error e
    | .ok available =>
      match firstUnapplied available applied with
      | .error e => .error e
      | .ok none => .ok none
      | .ok (some m) => .ok (some m.up)
  | .down =>
    .ok (applied.getLast?.map (fun tag => migDir ++ [tag, "down.sql"]))

/-- The `applied.into_iter().map(|tag| ...)` pass shared by both generations
of `load_applied`: pair each tag with the timestamp parsed from its first
`_`-segment, the whole pass failing if any parse does. -/
def stampTags : List String → Option (List (Nat × String))
  | [] => some []
  | tag :: rest =>
    match parseStamp (firstSeg tag), stampTags rest with
    | some s, some acc => some ((s, tag) :: acc)
    | _, _ => none

/-- `stamped.sort_by(|a, b| a.0.cmp(&b.0))` followed by the projection back to
tags, shared by both generations of `load_applied`. -/
def sortTagsByStamp (stamped : List (Nat × String)) : List String :=
  (List.insertionSort (fun a b : Nat × String => a.1 ≤ b.1) stamped).map (fun x => x.2)

/-- `Config::load_applied` of the library root (migrant_lib/src/lib.rs lines
246-266): pair every ledger tag with the timestamp parsed (and `unwrap`ped)
from its first `_`-segment, stable-sort by timestamp, and return the tags.
The `select_migrations` database query is abstracted as the `ledger` list in
insertion order; the `__migrant_migrations`-table existence check is at the
excluded backend boundary. -/
def loadAppliedM (ledger : List String) : Except Panic (List String) :=
  match stampTags ledger with
  | none => .error .stampPanic
  | some stamped => .ok (sortTagsByStamp stamped)

/-- The error outcomes of one `apply_migration` call: the `MigrationComplete`
sentinel, `Error::Migration` from a failed execution, a Rust panic (process
abort), or exhausted fuel (a model artifact standing for a recursion depth the
concrete claims never reach). -/
inductive AErr where
  | migrationComplete
  | migrationError
  | panicked (p : Panic)
  | fuelOut
  deriving Repr, DecidableEq

deriving instance DecidableEq for Except

/-- The record step of `apply_migration` (lines 1155-1166): `Up` appends the
tag row (`insert_migration_tag`), `Down` removes every row carrying the tag
(`delete_migration_tag`, a `delete from __migrant_migrations where tag = ..`). -/
def recordTag (direction : Direction) (ledger : List String) (tag : String) : List String :=
  match direction with
  | .up => ledger ++ [tag]
  | .down => ledger.filter (fun t => t ≠ tag)

/-- The `match res { Ok(_) => (), Err(MigrationComplete(_)) => (), Err(e) =>
return Err(e) }` handling of the recursive call in `apply_migration` (lines
1174-1182): the sentinel (and success) become `Ok`, every other error is
propagated verbatim. -/
def completeAsOk : Except AErr Unit → Except AErr Unit
  | .error .migrationComplete => .ok ()
  | o => o

/-- Observable result of `apply_migration`: the final database ledger (tag
rows in insertion order), the migration paths handed to the execution
primitive `runner`, and the returned `Result`. -/
structure StepResult where
  ledger : List String
  executed : List MPath
  outcome : Except AErr Unit
  deriving Repr, DecidableEq

/-- `apply_migration` (migrant_lib/src/lib.rs lines 1124-1185).

Parameters at the Ledger Gateway boundary: `runs` tells whether `runner`
succeeds on a given script path, `walk` is the directory scan under `migDir`,
`cfgApplied` is the in-memory `config.applied`, and `ledger` the persisted tag
rows.  Control flow follows the source: resolve (`None` bails with
`MigrationComplete`); execute unless `fake`, a failure bailing with
`Error::Migration` unless `force`; record the tag (`insert_migration_tag` /
`delete_migration_tag`, the latter a `delete where tag = ...`); reload the
applied list; and when `all` is set, recurse on the reloaded state mapping an
inner `MigrationComplete` to `Ok`. -/
def apply_migration (runs : MPath → Bool) (migDir : MPath) (walk : List MPath)
    (direction : Direction) (force fake all : Bool) :
    Nat → List String → List String → StepResult
  | 0, _, ledger => ⟨ledger, [], .error .fuelOut⟩
  | fuel + 1, cfgApplied, ledger =>
    match next_available direction migDir walk cfgApplied with
    | .error p => ⟨ledger, [], .error (.panicked p)⟩
    | .ok none => ⟨ledger, [], .error .migrationComplete⟩
    | .ok (some next) =>
      let executed : List MPath := if fake then [] else [next]
      if !fake && !(runs next) && !force then
        ⟨ledger, executed, .error .migrationError⟩
      else
        match (MPath.parent next).bind MPath.fileName with
        | none => ⟨ledger, executed, .error (.panicked .parentPanic)⟩
        | some tag =>
          let ledger' : List String := recordTag direction ledger tag
          match loadAppliedM ledger' with
          | .error p => ⟨ledger', executed, .error (.panicked p)⟩
          | .ok cfg' =>
            if all then
              let s := apply_migration runs migDir walk direction force fake all fuel cfg' ledger'
              ⟨s.ledger, executed ++ s.executed, completeAsOk s.outcome⟩
            else ⟨ledger', executed, .ok ()⟩

/-- Error kinds of the current-generation configuration layer
(`ErrorKind::Migration` with its two tag messages, and `ErrorKind::TagError`). -/
inductive CErr where
  | nonConformingTag
  | invalidTag
  | tagError
  deriving Repr, DecidableEq

/-- `Config::check_saved_tag` (migrant_lib/src/config.rs lines 344-355): in
explicit mode a saved tag must avoid characters outside `[a-z0-9-]`; in
discovered mode it must match the generated `<stamp>_<name>` pattern.  Either
failure is the "Found a non-conforming tag in the database" error. -/
def check_saved_tag (explicit : Bool) (tag : String) : Except CErr Unit :=
  if explicit then
    if invalid_tag tag then .error .nonConformingTag else .ok ()
  else
    if !(fullTagMatch tag) then .error .nonConformingTag else .ok ()

/-- The validation loop of `Config::load_applied` (config.rs lines 425-429):
check every tag returned by the database, propagating the first failure. -/
def checkSavedTags (explicit : Bool) : List String → Except CErr Unit
  | [] => .ok ()
  | tag :: rest =>
    match check_saved_tag explicit tag with
    | .error e => .error e
    | .ok () => checkSavedTags explicit rest

/-- `Config::load_applied` (migrant_lib/src/config.rs lines 415-441): validate
every saved tag, then return them as-is in explicit mode, or stable-sorted by
their parsed timestamp in discovered mode (a failing parse is a `TagError`,
not a panic, in this generation). -/
def load_applied (explicit : Bool) (dbTags : List String) : Except CErr (List String) :=
  match checkSavedTags explicit dbTags with
  | .error e => .error e
  | .ok () =>
    if explicit then .ok dbTags
    else
      match stampTags dbTags with
      | none => .error .tagError
      | some stamped => .ok (sortTagsByStamp stamped)

/-- A registered migration unit as `Config::use_migrations` sees it: the
`Box<Migratable>` is consulted only through `.tag()`. -/
structure MigUnit where
  tag : String
  deriving Repr, DecidableEq

/-- The duplicate-detection loop of `Config::use_migrations` (config.rs lines
321-332), with the `HashSet` of already-seen tags made explicit. -/
def checkDupTags (seen : List String) : List MigUnit → Except CErr Unit
  | [] => .ok ()
  | u :: rest =>
    if seen.contains u.tag then .error .tagError
    else checkDupTags (u.tag :: seen) rest

/-- `Config::use_migrations` (migrant_lib/src/config.rs lines 321-332): fail
with `TagError` on a duplicate tag, otherwise store the caller's list as
given.  The function touches no database state: it is pure over its
argument. -/
def use_migrations (units : List MigUnit) : Except CErr (List MigUnit) :=
  match checkDupTags [] units with
  | .error e => .error e
  | .ok () => .ok units

/-- `FileMigration` (migrant_lib/src/migration.rs lines 20-26). -/
structure FileMigration where
  tag : String
  up : Option MPath
  down : Option MPath
  stamp : Option Nat
  deriving Repr, DecidableEq

/-- `FileMigration::with_tag` (migration.rs lines 31-41): reject the tag when
`invalid_tag` holds, else start an empty migration. -/
def FileMigration.with_tag (tag : String) : Except CErr FileMigration :=
  if invalid_tag tag then .error .invalidTag else .ok ⟨tag, none, none, none⟩

/-- `EmbeddedMigration` (migration.rs lines 146-151). -/
structure EmbeddedMigration where
  tag : String
  up : Option String
  down : Option String
  deriving Repr, DecidableEq

/-- `EmbeddedMigration::with_tag` (migration.rs lines 156-165): same tag check
as the file-backed variant. -/
def EmbeddedMigration.with_tag (tag : String) : Except CErr EmbeddedMigration :=
  if invalid_tag tag then .error .invalidTag else .ok ⟨tag, none, none⟩

/-- `FnMigration` (migration.rs lines 237-242), its up/down callbacks
abstracted to their presence. -/
structure FnMigration where
  tag : String
  up : Option Unit
  down : Option Unit
  deriving Repr, DecidableEq

/-- `FnMigration::with_tag` (migration.rs lines 251-260): same tag check as
the other variants. -/
def FnMigration.with_tag (tag : String) : Except CErr FnMigration :=
  if invalid_tag tag then .error .invalidTag else .ok ⟨tag, none, none⟩

/-! ## Helper lemmas -/

theorem parent_of_ne_nil (p : MPath) (h : p ≠ []) : MPath.parent p = some p.dropLast := by
  cases p with
  | nil => exact absurd rfl h
  | cons a l => rfl

theorem getLast?_pair (pre : MPath) (a b : String) : (pre ++ [a, b]).getLast? = some b := by
  have h : pre ++ [a, b] = (pre ++ [a]) ++ [b] := by simp
  rw [h]; simp

theorem dropLast_pair (pre : MPath) (a b : String) : (pre ++ [a, b]).dropLast = pre ++ [a] := by
  have h : pre ++ [a, b] = (pre ++ [a]) ++ [b] := by simp
  rw [h]; simp

theorem hasSqlExt_pair (pre : MPath) (name last : String)
    (h : (MPath.extSplit last).2 = some "sql") :
    MPath.hasSqlExt (pre ++ [name, last]) = true := by
  simp [MPath.hasSqlExt, MPath.extension, MPath.fileName, getLast?_pair, h]

theorem groupSql_single (pre : MPath) (name last : String)
    (h : (MPath.extSplit last).2 = some "sql") :
    groupSql [pre ++ [name, last]] = [(pre ++ [name], [pre ++ [name, last]])] := by
  simp [groupSql, hasSqlExt_pair pre name last h, addToGroup, dropLast_pair]

theorem checkDupTags_ok_or_tagError (units : List MigUnit) : ∀ seen,
    checkDupTags seen units = .ok () ∨ checkDupTags seen units = .error .tagError := by
  induction units with
  | nil => intro seen; exact .inl rfl
  | cons u rest ih =>
    intro seen
    simp only [checkDupTags]
    split
    · exact .inr rfl
    · exact ih _

theorem checkDupTags_ok_iff (units : List MigUnit) : ∀ seen,
    (checkDupTags seen units = .ok ()
      ↔ (units.map (fun u => u.tag)).Nodup ∧ ∀ u ∈ units, u.tag ∉ seen) := by
  induction units with
  | nil => intro seen; simp [checkDupTags]
  | cons u rest ih =>
    intro seen
    simp only [checkDupTags, List.map_cons, List.nodup_cons]
    by_cases hmem : u.tag ∈ seen
    · rw [if_pos (by simpa using hmem)]
      simp only [List.mem_cons, forall_eq_or_imp]
      constructor
      · intro h; exact absurd h (by simp)
      · rintro ⟨-, ⟨hu, -⟩⟩; exact absurd hmem hu
    · rw [if_neg (by simpa using hmem), ih (u.tag :: seen)]
      constructor
      · rintro ⟨hnd, hall⟩
        refine ⟨⟨?_, hnd⟩, ?_⟩
        · intro hin
          obtain ⟨v, hv, hvt⟩ := List.mem_map.mp hin
          exact hall v hv (by simp [hvt])
        · intro v hv
          rcases List.mem_cons.mp hv with he | hs
          · subst he; exact hmem
          · exact fun hin => hall v hs (List.mem_cons_of_mem _ hin)
      · rintro ⟨⟨hnotin, hnd⟩, hall⟩
        refine ⟨hnd, fun v hv hin => ?_⟩
        rcases List.mem_cons.mp hin with he | hs
        · exact hnotin (List.mem_map.mpr ⟨v, hv, he⟩)
        · exact hall v (List.mem_cons_of_mem _ hv) hs

/-! ## C9: tag validation accepts the empty tag -/

/-- C9: tag validation (`TAG_RE` / `invalid_tag`) rejects a tag exactly when
it contains a character outside `[a-z0-9-]`; in particular the empty string
is accepted by the `with_tag` constructor of every migration-unit variant and
by the explicit-mode saved-tag check, although the spec's pattern
`[a-z0-9-]+` requires at least one character. -/
theorem c9_empty_tag_accepted :
    (∀ t : String, invalid_tag t = true ↔ ∃ c ∈ t.data, allowedChar c = false)
    ∧ FileMigration.with_tag "" = .ok ⟨"", none, none, none⟩
    ∧ EmbeddedMigration.with_tag "" = .ok ⟨"", none, none⟩
    ∧ FnMigration.with_tag "" = .ok ⟨"", none, none⟩
    ∧ check_saved_tag true "" = .ok () := by
  refine ⟨fun t => ?_, rfl, rfl, rfl, rfl⟩
  simp [invalid_tag]

/-! ## C7: explicit registration rejects duplicate tags -/

/-- C7: `Config::use_migrations` fails with `TagError` exactly when two units
share a tag, and otherwise stores the caller's list in the given order; the
function is pure in the units, so the failure happens before any ledger
interaction. -/
theorem c7_register_duplicate_tags (units : List MigUnit) :
    (¬ (units.map (fun u => u.tag)).Nodup → use_migrations units = .error .tagError)
    ∧ ((units.map (fun u => u.tag)).Nodup → use_migrations units = .ok units) := by
  constructor
  · intro hnd
    rcases checkDupTags_ok_or_tagError units [] with h | h
    · exact absurd ((checkDupTags_ok_iff units []).mp h).1 hnd
    · simp [use_migrations, h]
  · intro hnd
    have h : checkDupTags [] units = .ok () :=
      (checkDupTags_ok_iff units []).mpr ⟨hnd, by simp⟩
    simp [use_migrations, h]

/-- Witness for C7 at a concrete input: two units tagged `x` are rejected
with `TagError`, two distinct units are accepted in order. -/
theorem c7_register_duplicate_tags_witness :
    (¬ (([⟨"x"⟩, ⟨"x"⟩] : List MigUnit).map (fun u => u.tag)).Nodup
      ∧ use_migrations [⟨"x"⟩, ⟨"x"⟩] = .error .tagError)
    ∧ ((([⟨"x"⟩, ⟨"y"⟩] : List MigUnit).map (fun u => u.tag)).Nodup
      ∧ use_migrations [⟨"x"⟩, ⟨"y"⟩] = .ok [⟨"x"⟩, ⟨"y"⟩]) :=
  ⟨⟨by decide, (c7_register_duplicate_tags [⟨"x"⟩, ⟨"x"⟩]).1 (by decide)⟩,
   ⟨by decide, (c7_register_duplicate_tags [⟨"x"⟩, ⟨"y"⟩]).2 (by decide)⟩⟩

/-! ## C10: a stray `.sql` stem panics discovery -/

/-- C10: a `.sql` file whose stem is neither `up` nor `down` (here `foo.sql`)
drives `search_for_migrations` into the `unreachable!()` arm: the walk
aborts with a panic instead of producing a migration list or an error
`Result`. -/
theorem c10_unreachable_stem_panics :
    search_for_migrations [["m", "20170101010101_x", "foo.sql"]]
      = .error .unreachableStem := by
  rfl

/-! ## C5: discovery does not require both `up` and `down` files -/

/-- C5 counterexample: a migration directory containing only `up.sql` (no
`down.sql`) does not make discovery fail: `search_for_migrations` happily
returns a migration whose `down` path is the bare directory.  There is no
`MigrationNotFound` outcome at all; discovery returns a plain `Vec` and can
only panic. -/
theorem c5_counterexample :
    search_for_migrations [["m", "20170101010101_x", "up.sql"]]
      = .ok [⟨20170101010101, ["m", "20170101010101_x"],
              ["m", "20170101010101_x", "up.sql"], ["m", "20170101010101_x"]⟩] := by
  rfl

/-- C5 amended: discovery groups `.sql` files by directory but never checks
that both stems are present: a group holding only `up.sql` yields a migration
whose `down` path stays the group directory, and a group holding only
`down.sql` yields one whose `up` path stays the group directory (its `dir`
then even becoming that directory's parent); neither case is an error. -/
theorem c5_missing_file_not_error (pre : MPath) (name : String) (stamp : Nat)
    (h : parseStamp (firstSeg name) = some stamp) :
    search_for_migrations [pre ++ [name, "up.sql"]]
      = .ok [⟨stamp, pre ++ [name], pre ++ [name, "up.sql"], pre ++ [name]⟩]
    ∧ search_for_migrations [pre ++ [name, "down.sql"]]
      = .ok [⟨stamp, pre, pre ++ [name], pre ++ [name, "down.sql"]⟩] := by
  have hup : (MPath.extSplit "up.sql").2 = some "sql" := by rfl
  have hdown : (MPath.extSplit "down.sql").2 = some "sql" := by rfl
  have hne : pre ++ [name, "up.sql"] ≠ [] := by simp
  have hne2 : pre ++ [name] ≠ [] := by simp
  have e1 : MPath.fileName (pre ++ [name]) = some name := by simp [MPath.fileName]
  constructor
  · have e2 : MPath.fileStem (pre ++ [name, "up.sql"]) = some "up" := by
      unfold MPath.fileStem MPath.fileName
      rw [getLast?_pair]
      rfl
    have e3 : assignStems (pre ++ [name]) (pre ++ [name]) [pre ++ [name, "up.sql"]]
        = .ok (pre ++ [name, "up.sql"], pre ++ [name]) := by
      simp [assignStems, e2]
    have e4 : mkMigration (pre ++ [name]) [pre ++ [name, "up.sql"]]
        = .ok ⟨stamp, pre ++ [name], pre ++ [name, "up.sql"], pre ++ [name]⟩ := by
      simp only [mkMigration, e1, e3, parent_of_ne_nil (pre ++ [name, "up.sql"]) hne,
        dropLast_pair, h]
    rw [search_for_migrations, groupSql_single pre name "up.sql" hup]
    simp [mkMigrations, e4, List.insertionSort]
  · have e2 : MPath.fileStem (pre ++ [name, "down.sql"]) = some "down" := by
      unfold MPath.fileStem MPath.fileName
      rw [getLast?_pair]
      rfl
    have e3 : assignStems (pre ++ [name]) (pre ++ [name]) [pre ++ [name, "down.sql"]]
        = .ok (pre ++ [name], pre ++ [name, "down.sql"]) := by
      simp [assignStems, e2]
    have e4 : mkMigration (pre ++ [name]) [pre ++ [name, "down.sql"]]
        = .ok ⟨stamp, pre, pre ++ [name], pre ++ [name, "down.sql"]⟩ := by
      simp only [mkMigration, e1, e3, parent_of_ne_nil (pre ++ [name]) hne2,
        List.dropLast_concat, h]
    rw [search_for_migrations, groupSql_single pre name "down.sql" hdown]
    simp [mkMigrations, e4, List.insertionSort]

/-- Witness for the amended C5 at a concrete input. -/
theorem c5_missing_file_not_error_witness :
    parseStamp (firstSeg "20170101010101_y") = some 20170101010101
    ∧ search_for_migrations [["r", "20170101010101_y", "down.sql"]]
      = .ok [⟨20170101010101, ["r"], ["r", "20170101010101_y"],
              ["r", "20170101010101_y", "down.sql"]⟩] :=
  ⟨by rfl,
   (c5_missing_file_not_error ["r"] "20170101010101_y" 20170101010101 (by rfl)).2⟩

/-! ## C3: `Down` resolution never reports a missing unit -/

/-- C3 counterexample: with an applied tag that no discovered unit carries
(the walk is empty, so there are no units at all), `Down` resolution does not
fail with `MigrationNotFound`: it returns the synthesized path
`migs/sometag/down.sql` without consulting the units. -/
theorem c3_counterexample :
    next_available .down ["migs"] [] ["sometag"]
        = .ok (some ["migs", "sometag", "down.sql"])
    ∧ search_for_migrations [] = .ok [] :=
  ⟨rfl, rfl⟩

/-- C3 amended: `Down` resolution returns `None` when nothing is applied;
otherwise it directly returns `mig_dir/<last applied tag>/down.sql`, built
from the last applied tag alone — the discovered units are never consulted
(the result is independent of the walk), so a missing unit is not detected at
resolution time. -/
theorem c3_down_resolution (migDir : MPath) (walk walk' : List MPath)
    (applied : List String) :
    (applied = [] → next_available .down migDir walk applied = .ok none)
    ∧ (∀ tag, applied.getLast? = some tag →
        next_available .down migDir walk applied
          = .ok (some (migDir ++ [tag, "down.sql"])))
    ∧ next_available .down migDir walk applied
        = next_available .down migDir walk' applied := by
  refine ⟨fun h => by subst h; rfl, fun tag h => by simp [next_available, h], rfl⟩

/-- Witness for the amended C3 at a concrete input. -/
theorem c3_down_resolution_witness :
    (["t"] : List String).getLast? = some "t"
    ∧ next_available .down ["m"] [] ["t"] = .ok (some ["m", "t", "down.sql"]) :=
  ⟨rfl, (c3_down_resolution ["m"] [] [] ["t"]).2.1 "t" rfl⟩

/-! ## C6: ledger reload validates every saved tag -/

theorem check_saved_tag_ne_ok (explicit : Bool) (tag : String)
    (h : check_saved_tag explicit tag ≠ .ok ()) :
    check_saved_tag explicit tag = .error .nonConformingTag := by
  by_cases he : explicit = true
  · by_cases hv : invalid_tag tag = true
    · simp [check_saved_tag, he, hv]
    · exact absurd (by simp [check_saved_tag, he, hv]) h
  · by_cases hf : fullTagMatch tag = true
    · exact absurd (by simp [check_saved_tag, he, hf]) h
    · simp [check_saved_tag, he, hf]

theorem checkSavedTags_error (explicit : Bool) (tags : List String)
    (hex : ∃ t ∈ tags, check_saved_tag explicit t ≠ .ok ()) :
    checkSavedTags explicit tags = .error .nonConformingTag := by
  induction tags with
  | nil => obtain ⟨t, ht, -⟩ := hex; cases ht
  | cons t rest ih =>
    obtain ⟨u, hu, hne⟩ := hex
    simp only [checkSavedTags]
    by_cases hok : check_saved_tag explicit t = .ok ()
    · rw [hok]
      rcases List.mem_cons.mp hu with he | hs
      · subst he; exact absurd hok hne
      · exact ih ⟨u, hs, hne⟩
    · rw [check_saved_tag_ne_ok explicit t hok]

theorem checkSavedTags_ok (explicit : Bool) (tags : List String)
    (hall : ∀ t ∈ tags, check_saved_tag explicit t = .ok ()) :
    checkSavedTags explicit tags = .ok () := by
  induction tags with
  | nil => rfl
  | cons t rest ih =>
    simp only [checkSavedTags]
    rw [hall t (List.mem_cons_self t rest)]
    exact ih fun u hu => hall u (List.mem_cons_of_mem _ hu)

theorem takeWhile_digits_underscore (l1 l2 : List Char)
    (hd : ∀ c ∈ l1, c.isDigit = true) :
    (l1 ++ '_' :: l2).takeWhile (fun c => decide (c ≠ '_')) = l1 := by
  induction l1 with
  | nil => simp
  | cons c cs ih =>
    have hc : c ≠ '_' := by
      intro he
      have hdc := hd c (List.mem_cons_self c cs)
      rw [he] at hdc
      simp [Char.isDigit] at hdc
    have ihr := ih fun x hx => hd x (List.mem_cons_of_mem _ hx)
    simp only [List.cons_append, List.takeWhile_cons]
    simp only [hc, decide_not] at *
    simp [hc, ihr]

theorem fullTag_parse (t : String) (h : fullTagMatch t = true) :
    ∃ n, parseStamp (firstSeg t) = some n := by
  simp only [fullTagMatch, Bool.and_eq_true, decide_eq_true_eq] at h
  obtain ⟨⟨hlen, hdig⟩, hrest⟩ := h
  cases hd14 : t.data.drop 14 with
  | nil => rw [hd14] at hrest; simp at hrest
  | cons c name =>
    rw [hd14] at hrest
    simp only [Bool.and_eq_true, decide_eq_true_eq] at hrest
    obtain ⟨⟨hc, -⟩, -⟩ := hrest
    subst hc
    have hdata : t.data = t.data.take 14 ++ '_' :: name := by
      conv_lhs => rw [← List.take_append_drop 14 t.data]
      rw [hd14]
    have hdigits : ∀ x ∈ t.data.take 14, x.isDigit = true := by
      intro x hx
      exact List.all_eq_true.mp hdig x hx
    have hfs : firstSeg t = ⟨t.data.take 14⟩ := by
      unfold firstSeg
      conv_lhs => rw [hdata]
      rw [takeWhile_digits_underscore _ _ hdigits]
    rw [hfs]
    unfold parseStamp
    have hcond : ((String.mk (t.data.take 14)).length = 14
        && (String.mk (t.data.take 14)).data.all (fun x => x.isDigit)) = true := by
      simp only [Bool.and_eq_true, decide_eq_true_eq]
      exact ⟨hlen, hdig⟩
    rw [if_pos hcond]
    exact ⟨_, rfl⟩

theorem stampTags_of_parses (l : List String)
    (hall : ∀ t ∈ l, ∃ n, parseStamp (firstSeg t) = some n) :
    ∃ stamped, stampTags l = some stamped ∧ stamped.map (fun x => x.2) = l := by
  induction l with
  | nil => exact ⟨[], rfl, rfl⟩
  | cons t rest ih =>
    obtain ⟨n, hn⟩ := hall t (List.mem_cons_self t rest)
    obtain ⟨stamped, hs, hm⟩ := ih fun u hu => hall u (List.mem_cons_of_mem _ hu)
    refine ⟨(n, t) :: stamped, ?_, ?_⟩
    · simp only [stampTags, hn, hs]
    · simp [hm]

/-- C6: on every reload, `Config::load_applied` checks each tag returned by
the database against the active dialect (`[a-z0-9-]` in explicit mode, the
generated `<stamp>_<name>` pattern in discovered mode); a single
non-conforming tag makes the whole reload fail with the "found a
non-conforming tag in the database" error, while conforming tags are all
kept (as a permutation: verbatim in explicit mode, stamp-sorted in
discovered mode). -/
theorem c6_reload_validates_tags (explicit : Bool) (dbTags : List String) :
    (∀ t, check_saved_tag true t = .ok () ↔ invalid_tag t = false)
    ∧ (∀ t, check_saved_tag false t = .ok () ↔ fullTagMatch t = true)
    ∧ ((∃ t ∈ dbTags, check_saved_tag explicit t ≠ .ok ()) →
        load_applied explicit dbTags = .error .nonConformingTag)
    ∧ ((∀ t ∈ dbTags, check_saved_tag explicit t = .ok ()) →
        ∃ out, load_applied explicit dbTags = .ok out ∧ out.Perm dbTags
          ∧ (explicit = true → out = dbTags)) := by
  refine ⟨?_, ?_, ?_, ?_⟩
  · intro t; by_cases hv : invalid_tag t <;> simp [check_saved_tag, hv]
  · intro t; by_cases hv : fullTagMatch t <;> simp [check_saved_tag, hv]
  · intro hex
    unfold load_applied
    rw [checkSavedTags_error explicit dbTags hex]
  · intro hall
    unfold load_applied
    rw [checkSavedTags_ok explicit dbTags hall]
    cases explicit with
    | true => exact ⟨dbTags, rfl, List.Perm.refl _, fun _ => rfl⟩
    | false =>
      have hparse : ∀ t ∈ dbTags, ∃ n, parseStamp (firstSeg t) = some n := by
        intro t ht
        have hok := hall t ht
        have hft : fullTagMatch t = true := by
          by_contra hft
          simp [check_saved_tag, hft] at hok
        exact fullTag_parse t hft
      obtain ⟨stamped, hs, hm⟩ := stampTags_of_parses dbTags hparse
      refine ⟨sortTagsByStamp stamped, ?_, ?_, by simp⟩
      · simp only [Bool.false_eq_true, if_false, hs]
      · unfold sortTagsByStamp
        have hperm := List.perm_insertionSort
          (fun a b : Nat × String => a.1 ≤ b.1) stamped
        calc ((List.insertionSort (fun a b : Nat × String => a.1 ≤ b.1) stamped).map
                (fun x => x.2)).Perm (stamped.map (fun x => x.2)) := hperm.map _
          _ = dbTags := hm

/-- Witness for C6 at a concrete input: the malformed tag `BAD` aborts the
reload in discovered mode. -/
theorem c6_reload_validates_tags_witness :
    (∃ t ∈ (["BAD"] : List String), check_saved_tag false t ≠ .ok ())
    ∧ load_applied false ["BAD"] = .error .nonConformingTag :=
  ⟨⟨"BAD", by decide, by decide⟩,
   (c6_reload_validates_tags false ["BAD"]).2.2.1 ⟨"BAD", by decide, by decide⟩⟩

/-! ## C2: force semantics of a single apply step -/

/-- C2: when the next unit's execution fails, `apply_migration` with
`force = false` bails with `Error::Migration` before the record step, leaving
the ledger untouched; with `force = true` it logs and proceeds as if
successful, recording the tag in the ledger despite the failure (and, once
the reload succeeds, returning `Ok`). -/
theorem c2_force_semantics (runs : MPath → Bool) (migDir : MPath) (walk : List MPath)
    (cfgApplied ledger : List String) (next : MPath) (tag : String) (fuel : Nat)
    (hnext : next_available .up migDir walk cfgApplied = .ok (some next))
    (hruns : runs next = false)
    (htag : (MPath.parent next).bind MPath.fileName = some tag) :
    apply_migration runs migDir walk .up false false false (fuel + 1) cfgApplied ledger
      = ⟨ledger, [next], .error .migrationError⟩
    ∧ (apply_migration runs migDir walk .up true false false (fuel + 1) cfgApplied ledger).ledger
      = ledger ++ [tag]
    ∧ ∀ cfg', loadAppliedM (ledger ++ [tag]) = .ok cfg' →
        apply_migration runs migDir walk .up true false false (fuel + 1) cfgApplied ledger
          = ⟨ledger ++ [tag], [next], .ok ()⟩ := by
  refine ⟨?_, ?_, ?_⟩
  · simp [apply_migration, hnext, hruns]
  · cases hl : loadAppliedM (ledger ++ [tag]) with
    | error p =>
      simp [apply_migration, hnext, hruns, htag, recordTag, hl]
    | ok cfg' =>
      simp [apply_migration, hnext, hruns, htag, recordTag, hl]
  · intro cfg' hl
    simp [apply_migration, hnext, hruns, htag, recordTag, hl]

/-- Witness for C2 at a concrete input: a failing unit is not recorded
without `force` and is recorded with `force`. -/
theorem c2_force_semantics_witness :
    next_available .up ["m"]
        [["m", "20200101000000_a", "up.sql"], ["m", "20200101000000_a", "down.sql"]] []
      = .ok (some ["m", "20200101000000_a", "up.sql"])
    ∧ apply_migration (fun _ => false) ["m"]
        [["m", "20200101000000_a", "up.sql"], ["m", "20200101000000_a", "down.sql"]]
        .up false false false 1 [] []
      = ⟨[], [["m", "20200101000000_a", "up.sql"]], .error .migrationError⟩
    ∧ (apply_migration (fun _ => false) ["m"]
        [["m", "20200101000000_a", "up.sql"], ["m", "20200101000000_a", "down.sql"]]
        .up true false false 1 [] []).ledger
      = [] ++ ["20200101000000_a"] :=
  ⟨by rfl,
   (c2_force_semantics (fun _ => false) ["m"]
      [["m", "20200101000000_a", "up.sql"], ["m", "20200101000000_a", "down.sql"]]
      [] [] ["m", "20200101000000_a", "up.sql"] "20200101000000_a" 0
      (by rfl) (by rfl) (by rfl)).1,
   (c2_force_semantics (fun _ => false) ["m"]
      [["m", "20200101000000_a", "up.sql"], ["m", "20200101000000_a", "down.sql"]]
      [] [] ["m", "20200101000000_a", "up.sql"] "20200101000000_a" 0
      (by rfl) (by rfl) (by rfl)).2.1⟩

/-! ## C8: fake semantics of a single apply step -/

/-- C8: with `fake = true` a resolvable `Up` step never hands anything to the
execution primitive (`runner` is not invoked), yet records the unit's tag in
the ledger exactly as a really-executed successful application would. -/
theorem c8_fake_semantics (runs : MPath → Bool) (migDir : MPath) (walk : List MPath)
    (cfgApplied ledger : List String) (next : MPath) (tag : String) (force : Bool) (fuel : Nat)
    (hnext : next_available .up migDir walk cfgApplied = .ok (some next))
    (htag : (MPath.parent next).bind MPath.fileName = some tag) :
    (apply_migration runs migDir walk .up force true false (fuel + 1) cfgApplied ledger).executed
      = []
    ∧ (apply_migration runs migDir walk .up force true false (fuel + 1) cfgApplied ledger).ledger
      = ledger ++ [tag]
    ∧ (apply_migration runs migDir walk .up force true false (fuel + 1) cfgApplied ledger).ledger
      = (apply_migration (fun _ => true) migDir walk .up force false false (fuel + 1)
          cfgApplied ledger).ledger := by
  cases hl : loadAppliedM (ledger ++ [tag]) with
  | error p =>
    refine ⟨?_, ?_, ?_⟩ <;>
      simp [apply_migration, hnext, htag, recordTag, hl]
  | ok cfg' =>
    refine ⟨?_, ?_, ?_⟩ <;>
      simp [apply_migration, hnext, htag, recordTag, hl]

/-- Witness for C8 at a concrete input: a fake `Up` step executes nothing and
appends the tag. -/
theorem c8_fake_semantics_witness :
    next_available .up ["m"]
        [["m", "20200101000000_a", "up.sql"], ["m", "20200101000000_a", "down.sql"]] []
      = .ok (some ["m", "20200101000000_a", "up.sql"])
    ∧ (apply_migration (fun _ => false) ["m"]
        [["m", "20200101000000_a", "up.sql"], ["m", "20200101000000_a", "down.sql"]]
        .up false true false 1 [] []).executed = []
    ∧ (apply_migration (fun _ => false) ["m"]
        [["m", "20200101000000_a", "up.sql"], ["m", "20200101000000_a", "down.sql"]]
        .up false true false 1 [] []).ledger = [] ++ ["20200101000000_a"] :=
  ⟨by rfl,
   (c8_fake_semantics (fun _ => false) ["m"]
      [["m", "20200101000000_a", "up.sql"], ["m", "20200101000000_a", "down.sql"]]
      [] [] ["m", "20200101000000_a", "up.sql"] "20200101000000_a" false 0
      (by rfl) (by rfl)).1,
   (c8_fake_semantics (fun _ => false) ["m"]
      [["m", "20200101000000_a", "up.sql"], ["m", "20200101000000_a", "down.sql"]]
      [] [] ["m", "20200101000000_a", "up.sql"] "20200101000000_a" false 0
      (by rfl) (by rfl)).2.1⟩

/-! ## C4: the apply-all loop and the `MigrationComplete` sentinel -/

/-- C4 counterexample: with nothing left to apply, the very first resolution
inside `apply_migration(all = true)` bails with `MigrationComplete`, and that
sentinel is returned to the caller as an `Err` — it is not turned into batch
success. -/
theorem c4_counterexample :
    (apply_migration (fun _ => true) [] [] .up false false true 3 [] []).outcome
        = .error .migrationComplete
    ∧ (apply_migration (fun _ => true) [] [] .up false false true 3 [] []).outcome
        ≠ .ok () := by
  refine ⟨by rfl, by decide⟩

/-- C4 amended: `apply_migration(all = true)` performs one single step
(identical to the `all = false` call, which itself bails with the sentinel or
an error when there is nothing to do or execution fails); if that step errors
— including a first-step `MigrationComplete` — the error and the ledger as
mutated so far are returned as-is (no rollback); if it succeeds, the loop
recurses on
the freshly reloaded applied list, and only a `MigrationComplete` raised by
that recursive call is converted into batch success, any other inner error
propagating verbatim over the already-mutated ledger. -/
theorem c4_apply_all_loop (runs : MPath → Bool) (migDir : MPath) (walk : List MPath)
    (d : Direction) (force fake : Bool) (fuel : Nat) (cfg ledger : List String) :
    ((apply_migration runs migDir walk d force fake false (fuel + 1) cfg ledger).outcome
        ≠ .ok () →
      apply_migration runs migDir walk d force fake true (fuel + 1) cfg ledger
        = apply_migration runs migDir walk d force fake false (fuel + 1) cfg ledger)
    ∧ (∀ cfg',
        (apply_migration runs migDir walk d force fake false (fuel + 1) cfg ledger).outcome
          = .ok () →
        loadAppliedM
            (apply_migration runs migDir walk d force fake false (fuel + 1) cfg ledger).ledger
          = .ok cfg' →
        apply_migration runs migDir walk d force fake true (fuel + 1) cfg ledger
          = ⟨(apply_migration runs migDir walk d force fake true fuel cfg'
                (apply_migration runs migDir walk d force fake false (fuel + 1)
                  cfg ledger).ledger).ledger,
             (apply_migration runs migDir walk d force fake false (fuel + 1)
                cfg ledger).executed
               ++ (apply_migration runs migDir walk d force fake true fuel cfg'
                    (apply_migration runs migDir walk d force fake false (fuel + 1)
                      cfg ledger).ledger).executed,
             completeAsOk
               (apply_migration runs migDir walk d force fake true fuel cfg'
                  (apply_migration runs migDir walk d force fake false (fuel + 1)
                    cfg ledger).ledger).outcome⟩) := by
  constructor
  · intro hne
    cases hna : next_available d migDir walk cfg with
    | error p => simp [apply_migration, hna]
    | ok o =>
      cases o with
      | none => simp [apply_migration, hna]
      | some next =>
        by_cases hguard : (!fake && !(runs next) && !force) = true
        · simp [apply_migration, hna, hguard]
        · rw [Bool.not_eq_true] at hguard
          cases htag : (MPath.parent next).bind MPath.fileName with
          | none => simp [apply_migration, hna, hguard, htag]
          | some tag =>
            cases hload : loadAppliedM (recordTag d ledger tag) with
            | error p => simp [apply_migration, hna, hguard, htag, hload]
            | ok cfg2 =>
              exfalso
              apply hne
              simp [apply_migration, hna, hguard, htag, hload]
  · intro cfg' hok hload
    cases hna : next_available d migDir walk cfg with
    | error p => simp [apply_migration, hna] at hok
    | ok o =>
      cases o with
      | none => simp [apply_migration, hna] at hok
      | some next =>
        by_cases hguard : (!fake && !(runs next) && !force) = true
        · simp [apply_migration, hna, hguard] at hok
        · rw [Bool.not_eq_true] at hguard
          cases htag : (MPath.parent next).bind MPath.fileName with
          | none => simp [apply_migration, hna, hguard, htag] at hok
          | some tag =>
            cases hload2 : loadAppliedM (recordTag d ledger tag) with
            | error p => simp [apply_migration, hna, hguard, htag, hload2] at hok
            | ok cfg2 =>
              have hled : (apply_migration runs migDir walk d force fake false (fuel + 1)
                  cfg ledger).ledger = recordTag d ledger tag := by
                simp [apply_migration, hna, hguard, htag, hload2]
              have hexe : (apply_migration runs migDir walk d force fake false (fuel + 1)
                  cfg ledger).executed = if fake then [] else [next] := by
                simp [apply_migration, hna, hguard, htag, hload2]
              rw [hled] at hload
              rw [hload2] at hload
              injection hload with hcfg
              subst hcfg
              rw [hled, hexe]
              simp [apply_migration, hna, hguard, htag, hload2]

/-- Witness for the amended C4 at a concrete input: when the single step
fails (here because execution fails without `force`), the `all = true` call
returns exactly the single step's error and ledger. -/
theorem c4_apply_all_loop_witness :
    (apply_migration (fun _ => false) ["m"]
        [["m", "20200101000000_a", "up.sql"], ["m", "20200101000000_a", "down.sql"]]
        .up false false false 2 [] []).outcome ≠ .ok ()
    ∧ apply_migration (fun _ => false) ["m"]
        [["m", "20200101000000_a", "up.sql"], ["m", "20200101000000_a", "down.sql"]]
        .up false false true 2 [] []
      = apply_migration (fun _ => false) ["m"]
        [["m", "20200101000000_a", "up.sql"], ["m", "20200101000000_a", "down.sql"]]
        .up false false false 2 [] [] :=
  ⟨by decide,
   (c4_apply_all_loop (fun _ => false) ["m"]
      [["m", "20200101000000_a", "up.sql"], ["m", "20200101000000_a", "down.sql"]]
      .up false false 1 [] []).1 (by decide)⟩

/-! ## C1: `Up` resolution order -/

theorem sfm_sorted (walk : List MPath) (migs : List Migration)
    (h : search_for_migrations walk = .ok migs) : migs.Pairwise stampLE := by
  unfold search_for_migrations at h
  cases hm : mkMigrations (groupSql walk) with
  | error e => rw [hm] at h; cases h
  | ok l =>
    rw [hm] at h
    injection h with h2
    rw [← h2]
    exact List.sorted_insertionSort stampLE l

theorem next_available_up_eq (migDir : MPath) (walk : List MPath) (applied : List String)
    (migs : List Migration) (h : search_for_migrations walk = .ok migs) :
    next_available .up migDir walk applied
      = (firstUnapplied migs applied).map (fun o => o.map Migration.up) := by
  unfold next_available
  cases hf : firstUnapplied migs applied with
  | error e => simp [h, hf, Except.map]
  | ok o => cases o <;> simp [h, hf, Except.map]

theorem firstUnapplied_eq_find (migs : List Migration) (applied : List String)
    (hn : ∀ m ∈ migs, (MPath.fileName m.dir).isSome) :
    firstUnapplied migs applied
      = .ok (migs.find? (fun m => !(applied.contains (tagOf m)))) := by
  induction migs with
  | nil => rfl
  | cons m rest ih =>
    have hm := hn m (List.mem_cons_self m rest)
    cases hfn : MPath.fileName m.dir with
    | none => rw [hfn] at hm; cases hm
    | some t =>
      have htag : tagOf m = t := by simp [tagOf, hfn]
      have ihr := ih fun x hx => hn x (List.mem_cons_of_mem _ hx)
      by_cases hc : t ∈ applied
      · simp [firstUnapplied, hfn, List.find?_cons, htag, hc, ihr]
      · simp [firstUnapplied, hfn, List.find?_cons, htag, hc]

theorem firstUnapplied_skip (migs : List Migration) (applied : List String) (t : String)
    (hn : ∀ m ∈ migs, (MPath.fileName m.dir).isSome)
    (ht : ∀ m ∈ migs, tagOf m ≠ t) :
    firstUnapplied migs (t :: applied) = firstUnapplied migs applied := by
  induction migs with
  | nil => rfl
  | cons m rest ih =>
    have hm := hn m (List.mem_cons_self m rest)
    cases hfn : MPath.fileName m.dir with
    | none => rw [hfn] at hm; cases hm
    | some tg =>
      have htg : tg ≠ t := by
        have hx := ht m (List.mem_cons_self m rest)
        simpa [tagOf, hfn] using hx
      have ihr := ih (fun x hx => hn x (List.mem_cons_of_mem _ hx))
        (fun x hx => ht x (List.mem_cons_of_mem _ hx))
      by_cases hc : tg ∈ applied
      · simp [firstUnapplied, hfn, hc, ihr]
      · simp [firstUnapplied, hfn, htg, hc]

theorem firstUnapplied_visit (pre : List Migration) : ∀ (suf : List Migration),
    (∀ m ∈ pre ++ suf, (MPath.fileName m.dir).isSome) →
    (pre ++ suf).Pairwise (fun a b => tagOf a ≠ tagOf b) →
    firstUnapplied (pre ++ suf) (pre.map tagOf) = .ok suf.head? := by
  induction pre with
  | nil =>
    intro suf hn _
    cases suf with
    | nil => rfl
    | cons m rest =>
      have hm := hn m (by simp)
      cases hfn : MPath.fileName m.dir with
      | none => rw [hfn] at hm; cases hm
      | some t => simp [firstUnapplied, hfn]
  | cons p pre' ih =>
    intro suf hn hp
    have hpm := hn p (by simp)
    cases hfn : MPath.fileName p.dir with
    | none => rw [hfn] at hpm; cases hpm
    | some tp =>
      have htp : tagOf p = tp := by simp [tagOf, hfn]
      obtain ⟨hhead, htail⟩ := List.pairwise_cons.mp hp
      have hcontains : (tagOf p :: pre'.map tagOf).contains tp = true := by
        simp [htp]
      have hrest_n : ∀ m ∈ pre' ++ suf, (MPath.fileName m.dir).isSome :=
        fun x hx => hn x (List.mem_cons_of_mem _ hx)
      have hrest_t : ∀ m ∈ pre' ++ suf, tagOf m ≠ tagOf p :=
        fun x hx => (hhead x hx).symm
      calc firstUnapplied (p :: (pre' ++ suf)) ((p :: pre').map tagOf)
          = firstUnapplied (pre' ++ suf) (tagOf p :: pre'.map tagOf) := by
            simp [firstUnapplied, hfn, hcontains, htp]
        _ = firstUnapplied (pre' ++ suf) (pre'.map tagOf) :=
            firstUnapplied_skip _ _ _ hrest_n hrest_t
        _ = .ok suf.head? := ih suf hrest_n htail

/-- C1: `Up` resolution on a discovered set.  (1) discovery returns the units
sorted ascending by stamp; (2) resolution scans them in that order and
returns the `up` path of the first unit whose tag is not applied; (3) when
every tag is applied it returns `None`; (4) with an empty applied list it
returns the head unit, whose stamp is minimal; (5) with distinct tags and
distinct stamps the stamps are strictly increasing and, after the first `k`
units have been applied, resolution returns exactly the `k`-th unit — so
repeated apply/re-resolve visits all units in strictly increasing stamp
order. -/
theorem c1_up_resolution_order :
    (∀ (walk : List MPath) (migs : List Migration),
        search_for_migrations walk = .ok migs → migs.Pairwise stampLE)
    ∧ (∀ (migDir : MPath) (walk : List MPath) (applied : List String) (migs : List Migration),
        search_for_migrations walk = .ok migs →
        (∀ m ∈ migs, (MPath.fileName m.dir).isSome) →
        next_available .up migDir walk applied
          = .ok ((migs.find? (fun m => !(applied.contains (tagOf m)))).map Migration.up))
    ∧ (∀ (migDir : MPath) (walk : List MPath) (applied : List String) (migs : List Migration),
        search_for_migrations walk = .ok migs →
        (∀ m ∈ migs, (MPath.fileName m.dir).isSome) →
        (∀ m ∈ migs, tagOf m ∈ applied) →
        next_available .up migDir walk applied = .ok none)
    ∧ (∀ (migDir : MPath) (walk : List MPath) (migs : List Migration),
        search_for_migrations walk = .ok migs →
        (∀ m ∈ migs, (MPath.fileName m.dir).isSome) →
        next_available .up migDir walk [] = .ok (migs.head?.map Migration.up)
          ∧ ∀ h ∈ migs.head?, ∀ m ∈ migs, h.stamp ≤ m.stamp)
    ∧ (∀ (migDir : MPath) (walk : List MPath) (migs : List Migration),
        search_for_migrations walk = .ok migs →
        (∀ m ∈ migs, (MPath.fileName m.dir).isSome) →
        migs.Pairwise (fun a b => tagOf a ≠ tagOf b) →
        migs.Pairwise (fun a b => a.stamp ≠ b.stamp) →
        migs.Pairwise (fun a b => a.stamp < b.stamp)
          ∧ ∀ k, (hk : k < migs.length) →
              next_available .up migDir walk ((migs.take k).map tagOf)
                = .ok (some (migs.get ⟨k, hk⟩).up)) := by
  refine ⟨sfm_sorted, ?_, ?_, ?_, ?_⟩
  · intro migDir walk applied migs h hn
    rw [next_available_up_eq migDir walk applied migs h,
      firstUnapplied_eq_find migs applied hn]
    cases hfind : migs.find? (fun m => !(applied.contains (tagOf m))) <;>
      simp [hfind, Except.map]
  · intro migDir walk applied migs h hn hall
    rw [next_available_up_eq migDir walk applied migs h,
      firstUnapplied_eq_find migs applied hn]
    have hnone : migs.find? (fun m => !(applied.contains (tagOf m))) = none := by
      rw [List.find?_eq_none]
      intro x hx
      simp [hall x hx]
    rw [hnone]
    simp [Except.map]
  · intro migDir walk migs h hn
    constructor
    · rw [next_available_up_eq migDir walk [] migs h,
        firstUnapplied_eq_find migs [] hn]
      cases migs with
      | nil => simp [Except.map]
      | cons m rest => simp [List.find?_cons, Except.map]
    · have hs := sfm_sorted walk migs h
      cases migs with
      | nil => simp
      | cons m0 rest =>
        intro hd hhd x hx
        simp only [List.head?_cons, Option.mem_def, Option.some.injEq] at hhd
        subst hhd
        rcases List.mem_cons.mp hx with he | hs2
        · subst he; exact Nat.le_refl _
        · exact (List.pairwise_cons.mp hs).1 x hs2
  · intro migDir walk migs h hn htags hstamps
    constructor
    · exact ((sfm_sorted walk migs h).and hstamps).imp
        (fun hab => lt_of_le_of_ne hab.1 hab.2)
    · intro k hk
      have hsplit := List.take_append_drop k migs
      have hvisit := firstUnapplied_visit (migs.take k) (migs.drop k)
        (by rw [hsplit]; exact hn) (by rw [hsplit]; exact htags)
      rw [hsplit] at hvisit
      rw [next_available_up_eq migDir walk _ migs h, hvisit]
      have hh : (migs.drop k).head? = some (migs.get ⟨k, hk⟩) := by
        rw [List.head?_drop]
        simp [List.getElem?_eq_getElem, hk]
      rw [hh]
      simp [Except.map]

/-- Witness for C1 at a concrete two-unit discovery: the walk sorts the units
by stamp, an empty ledger resolves to the smaller stamp, and after applying
the first tag resolution moves to the second unit. -/
theorem c1_up_resolution_order_witness :
    search_for_migrations
        [["m", "20200202000000_b", "up.sql"], ["m", "20200202000000_b", "down.sql"],
         ["m", "20200101000000_a", "up.sql"], ["m", "20200101000000_a", "down.sql"]]
      = .ok [⟨20200101000000, ["m", "20200101000000_a"],
               ["m", "20200101000000_a", "up.sql"], ["m", "20200101000000_a", "down.sql"]⟩,
             ⟨20200202000000, ["m", "20200202000000_b"],
               ["m", "20200202000000_b", "up.sql"], ["m", "20200202000000_b", "down.sql"]⟩]
    ∧ List.Pairwise stampLE
        [⟨20200101000000, ["m", "20200101000000_a"],
           ["m", "20200101000000_a", "up.sql"], ["m", "20200101000000_a", "down.sql"]⟩,
         ⟨20200202000000, ["m", "20200202000000_b"],
           ["m", "20200202000000_b", "up.sql"], ["m", "20200202000000_b", "down.sql"]⟩]
    ∧ next_available .up ["m"]
        [["m", "20200202000000_b", "up.sql"], ["m", "20200202000000_b", "down.sql"],
         ["m", "20200101000000_a", "up.sql"], ["m", "20200101000000_a", "down.sql"]] []
      = .ok (some ["m", "20200101000000_a", "up.sql"])
    ∧ next_available .up ["m"]
        [["m", "20200202000000_b", "up.sql"], ["m", "20200202000000_b", "down.sql"],
         ["m", "20200101000000_a", "up.sql"], ["m", "20200101000000_a", "down.sql"]]
        ["20200101000000_a"]
      = .ok (some ["m", "20200202000000_b", "up.sql"]) := by
  refine ⟨by rfl, ?_, ?_, ?_⟩
  · exact c1_up_resolution_order.1
      [["m", "20200202000000_b", "up.sql"], ["m", "20200202000000_b", "down.sql"],
       ["m", "20200101000000_a", "up.sql"], ["m", "20200101000000_a", "down.sql"]]
      _ (by rfl)
  · exact (c1_up_resolution_order.2.2.2.1 ["m"]
      [["m", "20200202000000_b", "up.sql"], ["m", "20200202000000_b", "down.sql"],
       ["m", "20200101000000_a", "up.sql"], ["m", "20200101000000_a", "down.sql"]]
      _ (by rfl) (by decide)).1
  · exact (c1_up_resolution_order.2.2.2.2 ["m"]
      [["m", "20200202000000_b", "up.sql"], ["m", "20200202000000_b", "down.sql"],
       ["m", "20200101000000_a", "up.sql"], ["m", "20200101000000_a", "down.sql"]]
      _ (by rfl) (by decide) (by decide) (by decide)).2 1 (by decide)
